import Mathlib

/-!
# Verification of the dyrun simulation / estimation toolkit

A shallow embedding of the estimation-and-integration engine of the
repository (files `core/caller/dynamic_engine.py`, `core/caller/scope_engine.py`
and `blocks/general_blocks.py`) together with theorems settling the frozen
claims about it.

Modelling conventions:

* Machine floats are modelled by `ℚ`.  An output entry that may carry the
  not-a-number missing-measurement marker is modelled by `Option ℚ`
  (`none` = NaN); the engine only ever tests NaN-ness (`np.any(np.isnan(...))`)
  and otherwise uses the numeric value, so this is faithful.
* Numpy linear-algebra primitives whose numeric content is external to the
  repository (`np.linalg.inv`, `np.linalg.cholesky`, `np.sqrt`) are taken as
  parameters of the step functions: `inv` and `chol` may fail (singular /
  non-positive-definite input is a fatal error per the code), `sqrtQ` is a
  total function.
* Failure (Python exceptions: linear-algebra errors, `NameError`, bad
  dimensions) is modelled with `Except NumErr`.
* In-place numpy mutation of shared arrays is modelled by explicit state
  threading.  The two mutation sites that matter are the plant `_jacobians`
  functions that clamp `x[:, k]` in place (QuadrupleTank / TwoTanks) —
  hence `Plant.jacobians` returns the possibly-updated state history — and
  the UKF sigma-point loop, where `changed_full_state = self.states` is an
  alias (not a copy), so writing `changed_full_state[:, k]` writes the
  engine's own state history.
* State/input/output histories (numpy matrices indexed by column) are
  modelled as functions `ℕ → vector` from the column index.
* The plant `_limitations` functions in the repository act elementwise
  (identity or `np.maximum(x, 0)`), so applying a limitation to the full
  history matrix is modelled column-wise.
-/

open Matrix

/-- A state / input / output vector (one column of a history matrix). -/
abbrev Vec (n : ℕ) := Fin n → ℚ

/-- A rational matrix. -/
abbrev Mat (a b : ℕ) := Matrix (Fin a) (Fin b) ℚ

/-- Python exceptions that the engine can surface. -/
inductive NumErr
  | nameError
  | linalgError
  | dimError
  | indexError
deriving DecidableEq, Repr

/-- An output vector whose entries may carry the NaN missing-measurement
marker (`none` = NaN). -/
abbrev OutVec (p : ℕ) := Fin p → Option ℚ

/-- `np.any(np.isnan(output_signal))` — true when some entry is the NaN
marker. -/
def hasNaN (y : OutVec p) : Bool := decide (∃ i, y i = none)

/-- Numeric content of an output vector (only consulted on the branch where
no entry is NaN). -/
def nanVal (y : OutVec p) : Vec p := fun i => (y i).getD 0

/-- Wrap a plain output vector as a NaN-free measured output. -/
def someV (v : Vec p) : OutVec p := fun i => some (v i)

/-- The plant contract (`Nonlinear` subclass interface from
`blocks/general_blocks.py`): dynamics, measurement, limitation and Jacobian
functions over the full state/input histories plus the current step.
`time_type` is `'c'` (continuous) when `contTime` is true.  The engine
destructures the Jacobian tuple `(A, B, H, D, L, M)` as `[A, _, H, _, L, M]`,
so only `(A, H, L, M)` are modelled; the second component of the result is
the state history after the call, accounting for plants whose `_jacobians`
mutate `x[:, k]` in place. -/
structure Plant (n m p : ℕ) where
  contTime : Bool
  dynamics : (ℕ → Vec n) → (ℕ → Vec m) → ℕ → Except NumErr (Vec n)
  measurement : (ℕ → Vec n) → (ℕ → Vec m) → ℕ → Except NumErr (Vec p)
  limit : Vec n → Bool → Vec n
  jacobians : (ℕ → Vec n) → (ℕ → Vec m) → ℕ →
    Except NumErr ((Mat n n × Mat p n × Mat n n × Mat p p) × (ℕ → Vec n))

/-- Engine configuration carried by a `Nonlinear` estimator instance:
`q_matrix`, `r_matrix` (class attributes of the plant block) and the sample
time. -/
structure EngCfg (n p : ℕ) where
  qMatrix : Mat n n
  rMatrix : Mat p p
  sampleTime : ℚ

/-- Mutable state of a `Nonlinear` engine instance: the step counter
`current_step`, the state history (`n_steps + 1` columns, column 0 = initial
condition), the input and output histories, and the error covariance. -/
structure NLState (n m p : ℕ) where
  step : ℕ
  states : ℕ → Vec n
  inputs : ℕ → Vec m
  outputs : ℕ → OutVec p
  cov : Mat n n

/-- `self._limitations(history, mode)` applied to a full history matrix
(column-wise application of an elementwise limitation). -/
def limitHist (P : Plant n m p) (h : ℕ → Vec n) (mode : Bool) : ℕ → Vec n :=
  fun j => P.limit (h j) mode

/-- Modelled from the spec: `SolverCore.dynamic_runner`
(`core/lib/core_library.py`, not under `src/`).  Explicit Euler rule:
`x_next = x_base + dt * derivative_fn(x_for_eval)`; the derivative handle
receives the full (limited) state history, as in the engine.  All plant
blocks in the repository select the Euler solver. -/
def dynamicRunner (f : (ℕ → Vec n) → Except NumErr (Vec n)) (xEval : ℕ → Vec n)
    (xBase : Vec n) (dt : ℚ) : Except NumErr (Vec n) :=
  (f xEval).map fun d => fun i => xBase i + dt * d i

/-- Intermediate data of the EKF prediction phase
(`Nonlinear.__nextstepEKF`, lines 1025-1070): the recorded input history,
the state history after the Jacobian call (which may have mutated it), the
Jacobian blocks and the predicted state / covariance. -/
structure EKFPred (n m p : ℕ) where
  inputs2 : ℕ → Vec m
  states2 : ℕ → Vec n
  A : Mat n n
  H : Mat p n
  L : Mat n n
  M : Mat p p
  xp : Vec n
  Pp : Mat n n

/-- Prediction phase of `Nonlinear.__nextstepEKF`: record the input, compute
Jacobians, predict the state through the dynamics (with pre/post
limitations) and predict the covariance `Pp = A P Aᵀ + L Q Lᵀ`. -/
def ekfPredict (P : Plant n m p) (cfg : EngCfg n p) (s : NLState n m p)
    (u : Vec m) : Except NumErr (EKFPred n m p) := do
  let k := s.step
  let inputs2 := Function.update s.inputs k u
  let jr ← P.jacobians s.states inputs2 k
  let A := jr.1.1
  let H := jr.1.2.1
  let L := jr.1.2.2.1
  let M := jr.1.2.2.2
  let states2 := jr.2
  let xm := states2 k
  let xv := limitHist P states2 false
  let xp0 ←
    if P.contTime then
      dynamicRunner (fun h => P.dynamics h inputs2 k) xv xm cfg.sampleTime
    else
      P.dynamics xv inputs2 k
  let xp := P.limit xp0 true
  let Pp := A * s.cov * Aᵀ + L * cfg.qMatrix * Lᵀ
  pure ⟨inputs2, states2, A, H, L, M, xp, Pp⟩

/-- Final writes of an EKF tick: store the posterior state at column
`k + 1`, record the output at column `k`, store the covariance and advance
the step counter. -/
def ekfStore (s : NLState n m p) (pr : EKFPred n m p) (y : OutVec p)
    (xm : Vec n) (Pm : Mat n n) : NLState n m p :=
  { step := s.step + 1
    states := Function.update pr.states2 (s.step + 1) xm
    inputs := pr.inputs2
    outputs := Function.update s.outputs s.step y
    cov := Pm }

/-- One tick of `Nonlinear.__nextstepEKF`.  `inv` stands for
`np.linalg.inv`.  If the output carries the NaN marker the posterior equals
the prediction; otherwise the Kalman gain and posterior update are
computed. -/
def ekfStep (P : Plant n m p) (cfg : EngCfg n p)
    (inv : Mat p p → Except NumErr (Mat p p)) (s : NLState n m p)
    (u : Vec m) (y : OutVec p) : Except NumErr (NLState n m p) := do
  let pr ← ekfPredict P cfg s u
  if hasNaN y then
    pure (ekfStore s pr y pr.xp pr.Pp)
  else do
    let W ← inv (pr.H * pr.Pp * pr.Hᵀ + pr.M * cfg.rMatrix * pr.Mᵀ)
    let K := pr.Pp * pr.Hᵀ * W
    let xm := fun i => pr.xp i + K.mulVec (fun j => nanVal y j - pr.H.mulVec pr.xp j) i
    let Pm := (1 - K * pr.H) * pr.Pp
    pure (ekfStore s pr y xm Pm)

/-- Fresh `Nonlinear` engine state (`Nonlinear.__init__`): step counter 0,
state history zero except the initial condition in column 0, zero input
history, zero output history, initial covariance from the plant block. -/
def nlInit (x0 : Vec n) (P0 : Mat n n) : NLState n m p :=
  { step := 0
    states := Function.update (fun _ => (0 : Vec n)) 0 x0
    inputs := fun _ => 0
    outputs := fun _ => someV 0
    cov := P0 }

/-- `Nonlinear.reset` (lines 1237-1246): set `current_step` to zero.  No
other field is touched. -/
def nonlinReset (s : NLState n m p) : NLState n m p := { s with step := 0 }

/-- UKF configuration built by `Nonlinear.__init__` for `approach='ukf'`
(lines 927-935): scaling parameter `lambd`, `betta = 2` and the weight
vectors.  In the source `self.wc = self.wm` binds both names to the same
ndarray, so the in-place write `self.wc[0,0] = self.wm[0,0] + (1 - α² + β)`
is visible through `wm` as well; both fields therefore hold the updated
vector. -/
structure UKFCfg (nx : ℕ) where
  lambd : ℚ
  betta : ℚ
  wm : Fin (2 * nx + 1) → ℚ
  wc : Fin (2 * nx + 1) → ℚ

/-- The UKF branch of `Nonlinear.__init__`.  `self.num_states` is not
defined anywhere under `src/`; following the spec ("`λ = α²(n_x+κ) − n_x`
derived from configuration at construction") it is modelled as the plant's
state count `n_x`.  `wm` starts as the constant vector
`1/(2(n_x+λ))`; `wc` is the same array and its entry 0 is then overwritten
in place with `wm[0] + (1 - α² + β)`. -/
def ukfInit (nx : ℕ) (alpha kappa : ℚ) : UKFCfg nx :=
  let lambd := alpha ^ 2 * ((nx : ℚ) + kappa) - (nx : ℚ)
  let wm0 : Fin (2 * nx + 1) → ℚ := fun _ => 1 / (2 * ((nx : ℚ) + lambd))
  let w := Function.update wm0 0 (wm0 0 + (1 - alpha ^ 2 + 2))
  ⟨lambd, 2, w, w⟩

/-- Sigma points (`Nonlinear.__nextstepUKF`, STEP 2):
`sp = [xm, xm + dSigma[:,0..n-1], xm - dSigma[:,0..n-1]]`. -/
def sigmaPoints (nx : ℕ) (xm : Vec nx) (dSigma : Mat nx nx) :
    Fin (2 * nx + 1) → Vec nx := fun i =>
  if h0 : i.val = 0 then xm
  else if h : i.val ≤ nx then
    fun r => xm r + dSigma r ⟨i.val - 1, by omega⟩
  else
    fun r => xm r - dSigma r ⟨i.val - 1 - nx, by have := i.isLt; omega⟩

/-- Accumulator of the UKF sigma-point propagation loop: the engine's state
history (mutated through the `changed_full_state` alias each iteration), the
propagated sigma points `Xp` and the running weighted mean `xp`. -/
structure SigAcc (n nsp : ℕ) where
  states : ℕ → Vec n
  Xp : Fin nsp → Vec n
  xp : Vec n

/-- One iteration of the sigma-point propagation loop (STEP 3).
`changed_full_state = self.states` aliases the engine history, so
`changed_full_state[:, k] = sp[:, i]` writes column `k` of the engine's own
state history.  Each sigma point is pushed through the limited dynamics
(Euler base point `xm` for continuous plants) and accumulated into the
predicted mean with weight `wm[i]`. -/
def ukfSigmaStep (P : Plant n m p) (cfg : EngCfg n p) (ucfg : UKFCfg n)
    (inputs2 : ℕ → Vec m) (k : ℕ) (xm : Vec n)
    (sp : Fin (2 * n + 1) → Vec n) (acc : SigAcc n (2 * n + 1))
    (i : Fin (2 * n + 1)) : Except NumErr (SigAcc n (2 * n + 1)) := do
  let states := Function.update acc.states k (sp i)
  let xv := limitHist P states false
  let xpi0 ←
    if P.contTime then
      dynamicRunner (fun h => P.dynamics h inputs2 k) xv xm cfg.sampleTime
    else
      P.dynamics xv inputs2 k
  let xpi := P.limit xpi0 true
  pure ⟨states, Function.update acc.Xp i xpi,
    fun r => acc.xp r + ucfg.wm i * xpi r⟩

/-- The full sigma-point propagation loop, starting from zero `Xp` and zero
`xp` as in the source. -/
def ukfSigmaLoop (P : Plant n m p) (cfg : EngCfg n p) (ucfg : UKFCfg n)
    (inputs2 : ℕ → Vec m) (k : ℕ) (xm : Vec n)
    (sp : Fin (2 * n + 1) → Vec n) (states0 : ℕ → Vec n) :
    Except NumErr (SigAcc n (2 * n + 1)) :=
  (List.finRange (2 * n + 1)).foldlM
    (ukfSigmaStep P cfg ucfg inputs2 k xm sp)
    ⟨states0, fun _ => 0, 0⟩

/-- Columns-to-matrix helper: numpy matrices whose column `i` is `X i`. -/
def colMat (X : Fin k → Vec n) : Mat n k := Matrix.of fun r c => X c r

/-- Intermediate data of the UKF prediction phase (STEPs 0-3 of
`Nonlinear.__nextstepUKF`). -/
structure UKFPred (n m p : ℕ) where
  inputs2 : ℕ → Vec m
  states2 : ℕ → Vec n
  L : Mat n n
  M : Mat p p
  Xp : Fin (2 * n + 1) → Vec n
  xp : Vec n
  dPp : Mat n (2 * n + 1)
  Pp : Mat n n

/-- UKF prediction phase: record the input, Jacobians (`L`, `M` only are
used), Cholesky-based sigma points scaled by `√(n_ukf+λ)`, the propagation
loop and the predicted covariance
`Pp = dPp · diag(wc) · dPpᵀ + L Q Lᵀ`. -/
def ukfPredict (P : Plant n m p) (cfg : EngCfg n p) (ucfg : UKFCfg n)
    (chol : Mat n n → Except NumErr (Mat n n)) (sqrtQ : ℚ → ℚ)
    (s : NLState n m p) (u : Vec m) : Except NumErr (UKFPred n m p) := do
  let k := s.step
  let inputs2 := Function.update s.inputs k u
  let jr ← P.jacobians s.states inputs2 k
  let L := jr.1.2.2.1
  let M := jr.1.2.2.2
  let states2 := jr.2
  let xm := states2 k
  let Pm := s.cov
  let ch ← chol Pm
  let dSigma : Mat n n :=
    Matrix.of fun r c => sqrtQ ((n : ℚ) + ucfg.lambd) * chᵀ r c
  let sp := sigmaPoints n xm dSigma
  let acc ← ukfSigmaLoop P cfg ucfg inputs2 k xm sp states2
  let dPp := colMat fun i => acc.Xp i - acc.xp
  let Pp := dPp * Matrix.diagonal ucfg.wc * dPpᵀ + L * cfg.qMatrix * Lᵀ
  pure ⟨inputs2, acc.states, L, M, acc.Xp, acc.xp, dPp, Pp⟩

/-- Final writes of a UKF tick analogous to `ekfStore`; `states2` is the
history as left by the sigma/measurement loops (its column `k` holds the
last sigma point written through the alias). -/
def ukfStore (s : NLState n m p) (states2 : ℕ → Vec n)
    (inputs2 : ℕ → Vec m) (y : OutVec p) (xm : Vec n) (Pm : Mat n n) :
    NLState n m p :=
  { step := s.step + 1
    states := Function.update states2 (s.step + 1) xm
    inputs := inputs2
    outputs := Function.update s.outputs s.step y
    cov := Pm }

/-- Accumulator of the UKF measurement loop (STEP 5): threaded state
history, measured sigma points `Zb` and running weighted output mean. -/
structure MeasAcc (n p nsp : ℕ) where
  states : ℕ → Vec n
  Zb : Fin nsp → Vec p
  zb : Vec p

/-- One iteration of the measurement loop: again `changed_full_state`
aliases the engine history, so column `k` is overwritten with `Xp[:, i]`
before the measurement function is evaluated. -/
def ukfMeasStep (P : Plant n m p) (ucfg : UKFCfg n) (inputs2 : ℕ → Vec m)
    (k : ℕ) (Xp : Fin (2 * n + 1) → Vec n) (acc : MeasAcc n p (2 * n + 1))
    (i : Fin (2 * n + 1)) : Except NumErr (MeasAcc n p (2 * n + 1)) := do
  let states := Function.update acc.states k (Xp i)
  let zbi ← P.measurement states inputs2 k
  pure ⟨states, Function.update acc.Zb i zbi,
    fun r => acc.zb r + ucfg.wm i * zbi r⟩

/-- The full measurement loop. -/
def ukfMeasLoop (P : Plant n m p) (ucfg : UKFCfg n) (inputs2 : ℕ → Vec m)
    (k : ℕ) (Xp : Fin (2 * n + 1) → Vec n) (states0 : ℕ → Vec n) :
    Except NumErr (MeasAcc n p (2 * n + 1)) :=
  (List.finRange (2 * n + 1)).foldlM (ukfMeasStep P ucfg inputs2 k Xp)
    ⟨states0, fun _ => 0, 0⟩

/-- One tick of `Nonlinear.__nextstepUKF`.  On a NaN-marked output the
posterior equals the prediction (STEP 7 else-branch); otherwise the output
sigma points, output covariance `St`, cross covariance `SiG`, gain
`K = SiG · St⁻¹` and posterior `xm = xp + K(y - zb)`,
`Pm = Pp - K · SiGᵀ` are computed. -/
def ukfStep (P : Plant n m p) (cfg : EngCfg n p) (ucfg : UKFCfg n)
    (chol : Mat n n → Except NumErr (Mat n n)) (sqrtQ : ℚ → ℚ)
    (inv : Mat p p → Except NumErr (Mat p p)) (s : NLState n m p)
    (u : Vec m) (y : OutVec p) : Except NumErr (NLState n m p) := do
  let pr ← ukfPredict P cfg ucfg chol sqrtQ s u
  if hasNaN y then
    pure (ukfStore s pr.states2 pr.inputs2 y pr.xp pr.Pp)
  else do
    let macc ← ukfMeasLoop P ucfg pr.inputs2 s.step pr.Xp pr.states2
    let dSt := colMat fun i => macc.Zb i - macc.zb
    let St := dSt * Matrix.diagonal ucfg.wc * dStᵀ + pr.M * cfg.rMatrix * pr.Mᵀ
    let SiG := pr.dPp * Matrix.diagonal ucfg.wc * dStᵀ
    let W ← inv St
    let K := SiG * W
    let xm := fun r => pr.xp r + K.mulVec (fun j => nanVal y j - macc.zb j) r
    let Pm := pr.Pp - K * SiGᵀ
    pure (ukfStore s macc.states pr.inputs2 y xm Pm)

/-- Mutable state of a `LinearKalmanFilter` instance
(`dynamic_engine.py`, lines 254-348): priori/posteriori state, residual,
gain, priori/posteriori covariance. -/
structure LKFState (n m p : ℕ) where
  x_pr : Vec n
  x_ps : Vec n
  res : Vec p
  K : Mat n p
  P_pr : Mat n n
  P_ps : Mat n n

/-- `LinearKalmanFilter.__init__` with initial state `x_0` and initial
covariance `P_0` supplied: `x_pr = 0`, `x_ps = x_0`, `res = 0`, `K = 0`,
`P_pr = I`, `P_ps = P_0`. -/
def lkfInit (x0 : Vec n) (P0 : Mat n n) : LKFState n m p :=
  ⟨0, x0, 0, 0, 1, P0⟩

/-- One call of `LinearKalmanFilter.__call__` (lines 375-401): priori step,
gain, residual, posteriori step.  `inv` stands for `np.linalg.inv`. -/
def lkfStep (A : Mat n n) (B : Mat n m) (C : Mat p n) (Q : Mat n n)
    (R : Mat p p) (inv : Mat p p → Except NumErr (Mat p p))
    (s : LKFState n m p) (u : Vec m) (y : Vec p) :
    Except NumErr (LKFState n m p) :=
  let x_pr := fun i => A.mulVec s.x_ps i + B.mulVec u i
  let P_pr := A * s.P_ps * Aᵀ + Q
  (inv (C * P_pr * Cᵀ + R)).map fun W =>
    let K := P_pr * Cᵀ * W
    let res := fun i => y i - C.mulVec x_pr i
    ⟨x_pr, fun i => x_pr i + K.mulVec res i, res, K, P_pr,
      (1 - K * C) * P_pr⟩

/-- A `LinearKalmanFilter` object together with the `self.backup` attribute
dictionary captured at the end of `__init__` (`self.backup =
cop.copy(self.__dict__)`).  Stepping rebinds the live attributes to new
arrays, so the backup keeps the constructor-time values. -/
structure LKFObj (n m p : ℕ) where
  cur : LKFState n m p
  backup : LKFState n m p

/-- Construction of a `LinearKalmanFilter` object: live state and backup
both hold the constructor-time values. -/
def lkfObjInit (x0 : Vec n) (P0 : Mat n n) : LKFObj n m p :=
  ⟨lkfInit x0 P0, lkfInit x0 P0⟩

/-- `LinearKalmanFilter.__call__` on the object: updates the live
attributes, never the backup. -/
def lkfObjStep (A : Mat n n) (B : Mat n m) (C : Mat p n) (Q : Mat n n)
    (R : Mat p p) (inv : Mat p p → Except NumErr (Mat p p))
    (o : LKFObj n m p) (u : Vec m) (y : Vec p) :
    Except NumErr (LKFObj n m p) :=
  (lkfStep A B C Q R inv o.cur u y).map fun c => ⟨c, o.backup⟩

/-- `LinearKalmanFilter.reset` (lines 423-436): restore `self.__dict__`
from the backup and re-take the backup. -/
def lkfReset (o : LKFObj n m p) : LKFObj n m p := ⟨o.backup, o.backup⟩

/-- The purely linear discrete-time plant of claim C2: dynamics
`A·x[:,k] + B·u[:,k]`, measurement `C·x[:,k]`, identity limitation, Jacobian
returning the constant `A`, `H = C` and `L = M = I`, with no in-place
mutation of the history. -/
def linearPlant (A : Mat n n) (B : Mat n m) (C : Mat p n) : Plant n m p :=
  { contTime := false
    dynamics := fun h ins k => .ok fun i => A.mulVec (h k) i + B.mulVec (ins k) i
    measurement := fun h _ k => .ok (C.mulVec (h k))
    limit := fun x _ => x
    jacobians := fun h _ _ => .ok ((A, C, 1, 1), h) }

/-- The Lorenz chaos plant (`blocks/general_blocks.py`, class `Lorenz`):
`σ = 10`, `ρ = 28`, `β = 8/3`, continuous time, identity limitations.
Its `_jacobians` (lines 323-347) assigns locals `A`, `L`, `H`, `M` but then
executes `return A, B, H, D, L, M`, where the names `B` and `D` are bound
neither locally nor in any enclosing/module scope, so every call raises
`NameError` before returning — modelled as `Except.error .nameError`. -/
def lorenzPlant : Plant 3 1 2 :=
  { contTime := true
    dynamics := fun x _ins k => .ok fun r =>
      if r.val = 0 then 10 * x k 1 - 10 * x k 0 + _ins k 0
      else if r.val = 1 then 28 * x k 0 - x k 0 * x k 2 - x k 1
      else x k 0 * x k 1 - 8 / 3 * x k 2
    measurement := fun x _ k => .ok fun r => if r.val = 0 then x k 0 else x k 1
    limit := fun x _ => x
    jacobians := fun _ _ _ => .error .nameError }

/-- `QuadrupleTank._jacobians` (`blocks/general_blocks.py`, lines 98-148),
parametrized by `np.sqrt`.  The body starts with the in-place clamp
`x[:, k] = np.maximum(x[:, k], 1e-3)` on the caller's state history, so the
function returns the updated history alongside `(A, H, L, M)` (the engine
discards the returned `B`, `D`).  `np.real` is the identity on these real
matrices. -/
def quadrupleTankJacobians (sqrtQ : ℚ → ℚ) (x : ℕ → Vec 4) (_ins : ℕ → Vec 2)
    (k : ℕ) :
    Except NumErr ((Mat 4 4 × Mat 2 4 × Mat 4 4 × Mat 2 2) × (ℕ → Vec 4)) :=
  let a1 : ℚ := 71 / 1000
  let a2 : ℚ := 57 / 1000
  let a3 : ℚ := 71 / 1000
  let a4 : ℚ := 57 / 1000
  let bigA1 : ℚ := 28
  let bigA2 : ℚ := 32
  let bigA3 : ℚ := 28
  let bigA4 : ℚ := 32
  let g : ℚ := 981
  let kc : ℚ := 1 / 2
  let xk := fun r => max (x k r) (1 / 1000)
  let x2 := Function.update x k xk
  let A : Mat 4 4 := Matrix.of
    ![![-(a1 / bigA1 * sqrtQ (2 * g)) / (2 * sqrtQ (xk 0)), 0,
        a3 / bigA1 * sqrtQ (2 * g) / (2 * sqrtQ (xk 2)), 0],
      ![0, -(a2 / bigA2 * sqrtQ (2 * g)) / (2 * sqrtQ (xk 1)), 0,
        a4 / bigA2 * sqrtQ (2 * g) / (2 * sqrtQ (xk 3))],
      ![0, 0, -(a3 / bigA3 * sqrtQ (2 * g)) / (2 * sqrtQ (xk 2)), 0],
      ![0, 0, 0, -(a4 / bigA4 * sqrtQ (2 * g)) / (2 * sqrtQ (xk 3))]]
  let H : Mat 2 4 := Matrix.of ![![kc, 0, 0, 0], ![0, kc, 0, 0]]
  .ok ((A, H, 1, 1), x2)

/-- Iterated EKF estimation: `t` calls of `estimate` with input sequence
`us` and (possibly NaN-marked) output sequence `ys`, starting from the
freshly constructed engine state. -/
def ekfRun (P : Plant n m p) (cfg : EngCfg n p)
    (inv : Mat p p → Except NumErr (Mat p p)) (x0 : Vec n) (P0 : Mat n n)
    (us : ℕ → Vec m) (ys : ℕ → OutVec p) : ℕ → Except NumErr (NLState n m p)
  | 0 => .ok (nlInit x0 P0)
  | t + 1 => ekfRun P cfg inv x0 P0 us ys t >>= fun s =>
      ekfStep P cfg inv s (us t) (ys t)

/-- Iterated `LinearKalmanFilter.__call__` with the same input/output
sequences, starting from the freshly constructed filter. -/
def lkfRun (A : Mat n n) (B : Mat n m) (C : Mat p n) (Q : Mat n n)
    (R : Mat p p) (inv : Mat p p → Except NumErr (Mat p p)) (x0 : Vec n)
    (P0 : Mat n n) (us : ℕ → Vec m) (ys : ℕ → Vec p) :
    ℕ → Except NumErr (LKFState n m p)
  | 0 => .ok (lkfInit x0 P0)
  | t + 1 => lkfRun A B C Q R inv x0 P0 us ys t >>= fun s =>
      lkfStep A B C Q R inv s (us t) (ys t)

/-- A `Scope` object (`core/caller/scope_engine.py`): time line of length
`tlen`, a signal matrix of `rows` signals over `cols` samples.  Entries of
`sig` outside `rows × cols` are junk (the numpy array does not have them). -/
structure ScopeE where
  tlen : ℕ
  timeLine : ℕ → ℚ
  rows : ℕ
  cols : ℕ
  sig : ℕ → ℕ → ℚ

/-- Row-major flattening of an `r × c` matrix, as `np.reshape(m, (-1, 1))`
reads it. -/
def flatIdx (sig : ℕ → ℕ → ℚ) (c i : ℕ) : ℚ := sig (i / c) (i % c)

/-- `Scope.__init__` (lines 21-100) with `time_line` (length `T`) and
`n_signals` given and `initial` an `r × c` matrix (`load` not used, so
`load_flag` is false).  The branch chain on `inish = (r, c)`:

* `r + c ∈ {nSig, nSig + 1}`: reshape `initial` to a column and broadcast
  it over the zero `nSig × T` matrix (valid when the flattened length is
  `nSig` or 1, a numpy broadcasting error otherwise);
* otherwise, if `r + c ∈ {1, 2}`: nothing happens, the signals stay the
  zero `nSig × T` matrix;
* otherwise, if `(r, c) = (nSig, T)` or `T = 1` or `c = T`: the signals
  matrix is `initial` itself and `n_signals` becomes `r`;
* otherwise a `ValueError` is raised. -/
def scopeInitMatrix (tl : ℕ → ℚ) (T nSig r c : ℕ) (init : ℕ → ℕ → ℚ) :
    Except NumErr ScopeE :=
  if r + c = nSig ∨ r + c = nSig + 1 then
    if r * c = nSig then .ok ⟨T, tl, nSig, T, fun i _ => flatIdx init c i⟩
    else if r * c = 1 then .ok ⟨T, tl, nSig, T, fun _ _ => init 0 0⟩
    else .error .dimError
  else if r + c = 1 ∨ r + c = 2 then .ok ⟨T, tl, nSig, T, fun _ _ => 0⟩
  else if (r = nSig ∧ c = T) ∨ T = 1 ∨ c = T then .ok ⟨T, tl, r, c, init⟩
  else .error .dimError

/-- `Scope.append(other, select)` with `other` a single `Scope` and a 1-D
`select` list (lines 285-314): the new signal matrix stacks
`self.signals[select]` over `other.signals[select]` and is passed through
the `Scope` constructor with `n_signals = 2 * len(select)` and the shared
time line.  Out-of-range fancy indexing is an `IndexError`; `np.concatenate`
requires equal column counts. -/
def scopeAppendSel (a b : ScopeE) (sel : List ℕ) : Except NumErr ScopeE :=
  if (∀ i ∈ sel, i < a.rows) ∧ (∀ i ∈ sel, i < b.rows) ∧ b.cols = a.cols then
    scopeInitMatrix a.timeLine a.tlen (2 * sel.length) (2 * sel.length) a.cols
      fun i j =>
        if i < sel.length then a.sig (sel.getD i 0) j
        else b.sig (sel.getD (i - sel.length) 0) j
  else .error .indexError

/-- `Scope.select(rows_to_select)` (lines 335-350): `self.signals[select, :]`
passed through the constructor with `n_signals = len(select)`. -/
def scopeSelect (s : ScopeE) (sel : List ℕ) : Except NumErr ScopeE :=
  if ∀ i ∈ sel, i < s.rows then
    scopeInitMatrix s.timeLine s.tlen sel.length sel.length s.cols
      fun i j => s.sig (sel.getD i 0) j
  else .error .indexError

/-- `np.array(D).all()`: true iff every entry of `D` is nonzero. -/
def matAllNonzero (D : Mat a b) : Bool := decide (∀ i j, D i j ≠ 0)

/-- The feedthrough matrix stored by `LtiGroup.__init__` for a
tuple/list-form system (lines 80-81): `if np.array(D).all() == 0:` — i.e.
if some entry of `D` is zero — `D` is replaced by the zero
`n_outputs × n_inputs` matrix. -/
def ltiGroupStoredD (D : Mat p m) : Mat p m :=
  if matAllNonzero D then D else 0

/-- The feedthrough matrix stored by `LinearKalmanFilter.__init__`
(lines 311-312), same test as `LtiGroup`. -/
def lkfStoredD (D : Mat p m) : Mat p m :=
  if matAllNonzero D then D else 0

/-- Concrete one-dimensional linear plant used by witnesses and
counterexamples: `A = B = C = [[1]]`. -/
def testPlant : Plant 1 1 1 := linearPlant 1 1 1

/-- Concrete engine configuration: `Q = R = [[1]]`, sample time 1. -/
def testCfg : EngCfg 1 1 := ⟨1, 1, 1⟩

/-- Concrete stand-in for `np.linalg.inv` on `1 × 1` matrices (exact
reciprocal; a zero matrix is singular). -/
def testInv : Mat 1 1 → Except NumErr (Mat 1 1) := fun M =>
  if M 0 0 = 0 then .error .linalgError
  else .ok (Matrix.of ![![1 / M 0 0]])

/-- Concrete stand-in for `np.linalg.cholesky` on `1 × 1` matrices; exact
on the inputs it is applied to (`chol [[1]] = [[1]]`). -/
def testChol : Mat 1 1 → Except NumErr (Mat 1 1) := fun M => .ok M

/-- Concrete stand-in for `np.sqrt`, exact on the only value it is applied
to in the counterexample (`√4 = 2`). -/
def testSqrt : ℚ → ℚ := fun _ => 2

/-- Concrete UKF configuration: one state, `α = 1`, `κ = 3`, so `λ = 3`
and `√(n_ukf + λ) = √4 = 2`. -/
def testUcfg : UKFCfg 1 := ukfInit 1 1 3

/-- Concrete engine state: initial state 5, initial covariance `[[1]]`. -/
def testS5 : NLState 1 1 1 := nlInit (fun _ => 5) 1

/-- Concrete zero input vector. -/
def testU0 : Vec 1 := 0

/-- Concrete NaN-marked output (missing measurement). -/
def testYNaN : OutVec 1 := fun _ => none

/-- Concrete scope for the append/select counterexample: 2 signals over the
2-sample time line `[0, 1]`, rows `(10, 10)` and `(20, 20)`. -/
def scA : ScopeE :=
  ⟨2, fun j => j, 2, 2, fun i _ => if i = 0 then 10 else 20⟩

/-- Second concrete scope, rows `(30, 30)` and `(40, 40)`. -/
def scB : ScopeE :=
  ⟨2, fun j => j, 2, 2, fun i _ => if i = 0 then 30 else 40⟩

theorem exc_bind_ok (a : α) (f : α → Except ε β) :
    (Except.ok a : Except ε α) >>= f = f a := rfl

theorem exc_map_ok (f : α → β) (a : α) :
    (Except.ok a : Except ε α).map f = .ok (f a) := rfl

theorem finRange3 : List.finRange 3 = [0, 1, 2] := by decide

/-- **C9.** Every call of `Lorenz._jacobians` raises a `NameError` (the
function returns the tuple `(A, B, H, D, L, M)` but never binds the names
`B` and `D`), so both EKF and UKF estimation of the Lorenz plant fail on
their first tick, whatever the engine state, input and output. -/
theorem c9_lorenz_jacobians_nameerror :
    (∀ (x : ℕ → Vec 3) (ins : ℕ → Vec 1) (k : ℕ),
      lorenzPlant.jacobians x ins k = .error .nameError) ∧
    (∀ (cfg : EngCfg 3 2) (inv : Mat 2 2 → Except NumErr (Mat 2 2))
      (s : NLState 3 1 2) (u : Vec 1) (y : OutVec 2),
      ekfStep lorenzPlant cfg inv s u y = .error .nameError) ∧
    (∀ (cfg : EngCfg 3 2) (ucfg : UKFCfg 3)
      (chol : Mat 3 3 → Except NumErr (Mat 3 3)) (sqrtQ : ℚ → ℚ)
      (inv : Mat 2 2 → Except NumErr (Mat 2 2)) (s : NLState 3 1 2)
      (u : Vec 1) (y : OutVec 2),
      ukfStep lorenzPlant cfg ucfg chol sqrtQ inv s u y =
        .error .nameError) := by
  refine ⟨fun _ _ _ => rfl, fun _ _ _ _ _ => rfl, fun _ _ _ _ _ _ _ _ => rfl⟩

/-- **C10.** At construction of `LtiGroup` (tuple/list form) and of
`LinearKalmanFilter`, a supplied feedthrough matrix `D` with at least one
zero entry is replaced by the all-zero matrix, while a `D` whose entries
are all nonzero is stored as given. -/
theorem c10_feedthrough_zeroing (a b : ℕ) (D : Mat a b) :
    ((∃ i j, D i j = 0) →
      ltiGroupStoredD D = 0 ∧ lkfStoredD D = 0) ∧
    ((∀ i j, D i j ≠ 0) →
      ltiGroupStoredD D = D ∧ lkfStoredD D = D) := by
  constructor
  · rintro ⟨i, j, hij⟩
    have h : matAllNonzero D = false := by
      simp [matAllNonzero]
      exact ⟨i, j, hij⟩
    simp [ltiGroupStoredD, lkfStoredD, h]
  · intro h
    have h2 : matAllNonzero D = true := by
      simpa [matAllNonzero] using h
    simp [ltiGroupStoredD, lkfStoredD, h2]

/-- Witness for C10 at concrete matrices: `[[1, 0], [2, 3]]` (a zero entry)
is zeroed out, `[[1, 2], [3, 4]]` (all nonzero) is stored as given. -/
theorem c10_feedthrough_zeroing_witness :
    (ltiGroupStoredD !![(1 : ℚ), 0; 2, 3] = 0 ∧
      lkfStoredD !![(1 : ℚ), 0; 2, 3] = 0) ∧
    (ltiGroupStoredD !![(1 : ℚ), 2; 3, 4] = !![(1 : ℚ), 2; 3, 4] ∧
      lkfStoredD !![(1 : ℚ), 2; 3, 4] = !![(1 : ℚ), 2; 3, 4]) :=
  ⟨(c10_feedthrough_zeroing 2 2 !![(1 : ℚ), 0; 2, 3]).1 ⟨0, 1, rfl⟩,
    (c10_feedthrough_zeroing 2 2 !![(1 : ℚ), 2; 3, 4]).2 (by decide)⟩

/-- **C1 (amended).** What `Nonlinear.__init__` actually computes for a UKF
estimator: `λ = α²(n_x + κ) − n_x`; all weights start at `1/(2(n_x+λ))`;
`wc` is the same array as `wm`, and the in-place write
`wc[0,0] = wm[0,0] + (1 − α² + β)` (β = 2) is visible through `wm` too, so
after construction `wm[0] = wc[0] = 1/(2(n_x+λ)) + (1 − α² + 2)` — not
`λ/(n_x+λ)` — and `wm[i] = wc[i] = 1/(2(n_x+λ))` for `i ≥ 1`. -/
theorem c1_ukf_weights_amended (nx : ℕ) (alpha kappa : ℚ) :
    (ukfInit nx alpha kappa).lambd = alpha ^ 2 * ((nx : ℚ) + kappa) - nx ∧
    (ukfInit nx alpha kappa).wm 0 =
      1 / (2 * ((nx : ℚ) + (ukfInit nx alpha kappa).lambd)) +
        (1 - alpha ^ 2 + 2) ∧
    (∀ i : Fin (2 * nx + 1), i ≠ 0 →
      (ukfInit nx alpha kappa).wm i =
        1 / (2 * ((nx : ℚ) + (ukfInit nx alpha kappa).lambd))) ∧
    (ukfInit nx alpha kappa).wc = (ukfInit nx alpha kappa).wm := by
  refine ⟨rfl, ?_, ?_, rfl⟩
  · simp [ukfInit, Function.update_same]
  · intro i hi
    simp [ukfInit, Function.update_noteq hi]

/-- Witness for C1 (amended) at the QuadrupleTank tuning `n_x = 4`,
`α = 1/5`, `κ = 80`, with the off-center weight read at index 1. -/
theorem c1_ukf_weights_amended_witness :
    (ukfInit 4 (1 / 5) 80).lambd = (1 / 5 : ℚ) ^ 2 * ((4 : ℚ) + 80) - 4 ∧
    (ukfInit 4 (1 / 5) 80).wm 1 =
      1 / (2 * ((4 : ℚ) + (ukfInit 4 (1 / 5) 80).lambd)) :=
  ⟨(c1_ukf_weights_amended 4 (1 / 5) 80).1,
    (c1_ukf_weights_amended 4 (1 / 5) 80).2.2.1 1 (by decide)⟩

/-- **C1 (counterexample).** At the QuadrupleTank tuning (`n_x = 4`,
`α = 1/5`, `κ = 80`) the constructed center mean weight is
`1/(2(n_x+λ)) + (1 − α² + 2) = 13057/4200`, not `λ/(n_x+λ) = −4/21` as the
claim states. -/
theorem c1_ukf_weights_counterexample :
    (ukfInit 4 (1 / 5) 80).wm 0 ≠
      (ukfInit 4 (1 / 5) 80).lambd /
        ((4 : ℚ) + (ukfInit 4 (1 / 5) 80).lambd) := by
  simp [ukfInit, Function.update_same]
  norm_num

theorem ekfPredict_map_inputs2 (P : Plant n m p) (cfg : EngCfg n p)
    (s : NLState n m p) (u : Vec m) :
    (ekfPredict P cfg s u).map (fun pr => pr.inputs2) =
      (ekfPredict P cfg s u).map
        fun _ => Function.update s.inputs s.step u := by
  unfold ekfPredict
  rcases hj : P.jacobians s.states (Function.update s.inputs s.step u) s.step
    with e | jr
  · simp [bind, Except.bind, hj, Except.map]
  · rcases hP : P.contTime with _ | _
    · rcases hd : P.dynamics (limitHist P jr.2 false)
          (Function.update s.inputs s.step u) s.step with e2 | xp0 <;>
        simp [bind, Except.bind, hj, hP, hd, Except.map, pure, Except.pure]
    · rcases hd : dynamicRunner
          (fun hh => P.dynamics hh (Function.update s.inputs s.step u) s.step)
          (limitHist P jr.2 false) (jr.2 s.step) cfg.sampleTime with e2 | xp0 <;>
        simp [bind, Except.bind, hj, hP, hd, Except.map, pure, Except.pure]

theorem ekfPredict_ok_inputs2 {P : Plant n m p} {cfg : EngCfg n p}
    {s : NLState n m p} {u : Vec m} {pr : EKFPred n m p}
    (h : ekfPredict P cfg s u = .ok pr) :
    pr.inputs2 = Function.update s.inputs s.step u := by
  have h2 := ekfPredict_map_inputs2 P cfg s u
  rw [h] at h2
  simpa [Except.map] using h2

theorem ukfPredict_map_inputs2 (P : Plant n m p) (cfg : EngCfg n p)
    (ucfg : UKFCfg n) (chol : Mat n n → Except NumErr (Mat n n))
    (sqrtQ : ℚ → ℚ) (s : NLState n m p) (u : Vec m) :
    (ukfPredict P cfg ucfg chol sqrtQ s u).map (fun pr => pr.inputs2) =
      (ukfPredict P cfg ucfg chol sqrtQ s u).map
        fun _ => Function.update s.inputs s.step u := by
  unfold ukfPredict
  rcases hj : P.jacobians s.states (Function.update s.inputs s.step u) s.step
    with e | jr
  · simp [bind, Except.bind, hj, Except.map]
  · rcases hc : chol s.cov with e2 | ch
    · simp [bind, Except.bind, hj, hc, Except.map]
    · rcases ha : ukfSigmaLoop P cfg ucfg (Function.update s.inputs s.step u)
          s.step (jr.2 s.step)
          (sigmaPoints n (jr.2 s.step)
            (Matrix.of fun r c =>
              sqrtQ ((n : ℚ) + ucfg.lambd) * ch c r)) jr.2 with e3 | acc <;>
        simp [bind, Except.bind, hj, hc, ha, Except.map, pure, Except.pure,
          Matrix.transpose_apply]

theorem ukfPredict_ok_inputs2 {P : Plant n m p} {cfg : EngCfg n p}
    {ucfg : UKFCfg n} {chol : Mat n n → Except NumErr (Mat n n)}
    {sqrtQ : ℚ → ℚ} {s : NLState n m p} {u : Vec m} {pr : UKFPred n m p}
    (h : ukfPredict P cfg ucfg chol sqrtQ s u = .ok pr) :
    pr.inputs2 = Function.update s.inputs s.step u := by
  have h2 := ukfPredict_map_inputs2 P cfg ucfg chol sqrtQ s u
  rw [h] at h2
  simpa [Except.map] using h2

/-- **C3.** On any EKF or UKF estimator tick whose supplied output carries
the NaN missing-measurement marker, the step result is exactly the
prediction-only update: posterior state = predicted state, stored
covariance = predicted covariance.  The right-hand sides do not mention the
`inv` oracle, so the missing measurement itself raises nothing — the tick
succeeds whenever the prediction phase does. -/
theorem c3_missing_measurement_prediction_only :
    (∀ (n m p : ℕ) (P : Plant n m p) (cfg : EngCfg n p)
      (inv : Mat p p → Except NumErr (Mat p p)) (s : NLState n m p)
      (u : Vec m) (y : OutVec p), hasNaN y = true →
      ekfStep P cfg inv s u y =
        (ekfPredict P cfg s u).map fun pr => ekfStore s pr y pr.xp pr.Pp) ∧
    (∀ (n m p : ℕ) (P : Plant n m p) (cfg : EngCfg n p) (ucfg : UKFCfg n)
      (chol : Mat n n → Except NumErr (Mat n n)) (sqrtQ : ℚ → ℚ)
      (inv : Mat p p → Except NumErr (Mat p p)) (s : NLState n m p)
      (u : Vec m) (y : OutVec p), hasNaN y = true →
      ukfStep P cfg ucfg chol sqrtQ inv s u y =
        (ukfPredict P cfg ucfg chol sqrtQ s u).map fun pr =>
          ukfStore s pr.states2 pr.inputs2 y pr.xp pr.Pp) := by
  constructor
  · intro n m p P cfg inv s u y h
    rcases hpr : ekfPredict P cfg s u with e | pr
    · simp [ekfStep, hpr, bind, Except.bind, Except.map]
    · simp [ekfStep, hpr, h, bind, Except.bind, Except.map, pure, Except.pure]
  · intro n m p P cfg ucfg chol sqrtQ inv s u y h
    rcases hpr : ukfPredict P cfg ucfg chol sqrtQ s u with e | pr
    · simp [ukfStep, hpr, bind, Except.bind, Except.map]
    · simp [ukfStep, hpr, h, bind, Except.bind, Except.map, pure, Except.pure]

/-- Witness for C3 at the concrete one-state fixture with the NaN-marked
output `testYNaN`. -/
theorem c3_missing_measurement_prediction_only_witness :
    hasNaN testYNaN = true ∧
    ekfStep testPlant testCfg testInv testS5 testU0 testYNaN =
      (ekfPredict testPlant testCfg testS5 testU0).map (fun pr =>
        ekfStore testS5 pr testYNaN pr.xp pr.Pp) ∧
    ukfStep testPlant testCfg testUcfg testChol testSqrt testInv testS5
        testU0 testYNaN =
      (ukfPredict testPlant testCfg testUcfg testChol testSqrt testS5
          testU0).map (fun pr =>
        ukfStore testS5 pr.states2 pr.inputs2 testYNaN pr.xp pr.Pp) :=
  ⟨rfl,
    c3_missing_measurement_prediction_only.1 1 1 1 testPlant testCfg testInv
      testS5 testU0 testYNaN rfl,
    c3_missing_measurement_prediction_only.2 1 1 1 testPlant testCfg testUcfg
      testChol testSqrt testInv testS5 testU0 testYNaN rfl⟩

/-- **C7 (amended).** Every EKF or UKF estimator tick records *both* the
input and the supplied output — NaN marker included — into the history
buffers at column `k`; the missing-measurement marker does not suppress the
output write. -/
theorem c7_record_amended (n m p : ℕ) (P : Plant n m p) (cfg : EngCfg n p)
    (inv : Mat p p → Except NumErr (Mat p p)) (s : NLState n m p)
    (u : Vec m) (y : OutVec p) :
    ((ekfStep P cfg inv s u y).map
        (fun s' => (s'.inputs s.step, s'.outputs s.step)) =
      (ekfStep P cfg inv s u y).map fun _ => (u, y)) ∧
    ∀ (ucfg : UKFCfg n) (chol : Mat n n → Except NumErr (Mat n n))
      (sqrtQ : ℚ → ℚ),
      (ukfStep P cfg ucfg chol sqrtQ inv s u y).map
          (fun s' => (s'.inputs s.step, s'.outputs s.step)) =
        (ukfStep P cfg ucfg chol sqrtQ inv s u y).map fun _ => (u, y) := by
  constructor
  · rcases hpr : ekfPredict P cfg s u with e | pr
    · simp [ekfStep, hpr, bind, Except.bind, Except.map]
    · have hin := ekfPredict_ok_inputs2 hpr
      rcases hN : hasNaN y with _ | _
      · rcases hW : inv (pr.H * pr.Pp * pr.Hᵀ + pr.M * cfg.rMatrix * pr.Mᵀ)
          with e2 | W
        · simp [ekfStep, hpr, hN, hW, bind, Except.bind, Except.map]
        · simp [ekfStep, hpr, hN, hW, bind, Except.bind, Except.map, pure,
            Except.pure, ekfStore, hin, Function.update_same]
      · simp [ekfStep, hpr, hN, bind, Except.bind, Except.map, pure,
          Except.pure, ekfStore, hin, Function.update_same]
  · intro ucfg chol sqrtQ
    rcases hpr : ukfPredict P cfg ucfg chol sqrtQ s u with e | pr
    · simp [ukfStep, hpr, bind, Except.bind, Except.map]
    · have hin := ukfPredict_ok_inputs2 hpr
      rcases hN : hasNaN y with _ | _
      · rcases hM : ukfMeasLoop P ucfg pr.inputs2 s.step pr.Xp pr.states2
          with e2 | macc
        · simp [ukfStep, hpr, hN, hM, bind, Except.bind, Except.map]
        · rcases hW : inv ((colMat fun i => macc.Zb i - macc.zb) *
              Matrix.diagonal ucfg.wc *
              (colMat fun i => macc.Zb i - macc.zb)ᵀ +
              pr.M * cfg.rMatrix * pr.Mᵀ) with e3 | W
          · simp [ukfStep, hpr, hN, hM, hW, bind, Except.bind, Except.map]
          · simp only [ukfStep, hpr, hN, hM, hW, bind, Except.bind,
              Except.map, pure, Except.pure, Bool.false_eq_true, if_false,
              ukfStore]
            simp [hin, Function.update_same]
      · simp [ukfStep, hpr, hN, bind, Except.bind, Except.map, pure,
          Except.pure, ukfStore, hin, Function.update_same]

/-- **C7 (counterexample).** A concrete EKF tick with the NaN-marked output:
the output history at column 0 changes from `some 0` to the NaN marker —
the buffer is *not* left unchanged. -/
theorem c7_record_counterexample :
    (ekfStep testPlant testCfg testInv testS5 testU0 testYNaN).map
        (fun s' => s'.outputs 0 0) = .ok none ∧
    testS5.outputs 0 0 = some 0 ∧ (none : Option ℚ) ≠ some 0 := by
  refine ⟨?_, rfl, by decide⟩
  simp [ekfStep, ekfPredict, ekfStore, testPlant, testCfg, testInv, testS5,
    testU0, testYNaN, linearPlant, nlInit, hasNaN, limitHist, bind,
    Except.bind, pure, Except.pure, Except.map, Function.update]

/-- **C4 (code evaluated at the failing inputs).** The estimator tick does
*not* write only column `k + 1`.  (1) A concrete UKF tick at step 0 on the
one-state fixture (prior state 5, covariance `[[1]]`, `λ = 3`,
`√(n+λ) = 2`, NaN output): the sigma-point loop writes the sigma points
through the `changed_full_state = self.states` alias, leaving column 0 of
the state history equal to the last sigma point `5 − 2 = 3` instead of the
prior value 5.  (2) `QuadrupleTank._jacobians` clamps `x[:, k]` in place:
called on the all-zero history at step 0, it leaves column 0 entry 0 equal
to `1/1000` instead of 0. -/
theorem c4_history_overwritten_on_tick :
    ((ukfStep testPlant testCfg testUcfg testChol testSqrt testInv testS5
        testU0 testYNaN).map (fun s => s.states 0 0) = .ok 3 ∧
      testS5.states 0 0 = 5 ∧ (3 : ℚ) ≠ 5) ∧
    ((quadrupleTankJacobians (fun _ => 0) (fun _ _ => 0) (fun _ _ => 0)
        0).map (fun r => r.2 0 0) = .ok (1 / 1000) ∧
      (1 / 1000 : ℚ) ≠ 0) := by
  refine ⟨⟨?_, rfl, by decide⟩, ⟨?_, by norm_num⟩⟩
  · simp [ukfStep, ukfPredict, ukfStore, ukfSigmaLoop, ukfSigmaStep,
      sigmaPoints, testPlant, testCfg, testInv, testChol, testSqrt, testUcfg,
      testS5, testU0, testYNaN, ukfInit, linearPlant, nlInit, hasNaN,
      limitHist, bind, Except.bind, pure, Except.pure, Except.map, finRange3,
      List.foldlM, Matrix.mul_apply, Fin.sum_univ_one, Matrix.one_apply,
      Function.update, colMat]
    norm_num
  · simp [quadrupleTankJacobians, Except.map, Function.update]

/-- **C5 (counterexample).** One EKF `estimate` call on the one-state
fixture (NaN output, so prediction only) moves the covariance from the
constructor value `[[1]]` to `[[2]]`; `Nonlinear.reset` afterwards leaves it
at `[[2]]` — not the constructor-time value. -/
theorem c5_reset_counterexample :
    (ekfStep testPlant testCfg testInv testS5 testU0 testYNaN).map
        (fun s => (nonlinReset s).cov 0 0) = .ok 2 ∧
    testS5.cov 0 0 = 1 ∧ (2 : ℚ) ≠ 1 := by
  refine ⟨?_, rfl, by decide⟩
  simp [ekfStep, ekfPredict, ekfStore, nonlinReset, testPlant, testCfg,
    testInv, testS5, testU0, testYNaN, linearPlant, nlInit, hasNaN,
    limitHist, bind, Except.bind, pure, Except.pure, Except.map,
    Matrix.mul_apply, Fin.sum_univ_one, Matrix.one_apply, Function.update]
  norm_num

/-- **C5 (amended).** `reset()` on the backup-based components restores all
mutable fields to their constructor-time values
(`LinearKalmanFilter.reset` restores the attribute dictionary from the
backup, and stepping never touches the backup), but `Nonlinear.reset` only
returns the step counter to 0: the state/input/output histories and the
error covariance keep their current values, so a second estimator run from
reset starts from the last covariance rather than the constructor-time
one. -/
theorem c5_reset_amended :
    (∀ (n m p : ℕ) (o : LKFObj n m p),
      lkfReset o = ⟨o.backup, o.backup⟩) ∧
    (∀ (n m p : ℕ) (A : Mat n n) (B : Mat n m) (C : Mat p n) (Q : Mat n n)
      (R : Mat p p) (inv : Mat p p → Except NumErr (Mat p p))
      (o : LKFObj n m p) (u : Vec m) (y : Vec p),
      (lkfObjStep A B C Q R inv o u y).map LKFObj.backup =
        (lkfObjStep A B C Q R inv o u y).map fun _ => o.backup) ∧
    (∀ (n m p : ℕ) (o : LKFObj n m p),
      (lkfObjInit (n := n) (m := m) (p := p) o.cur.x_ps o.cur.P_ps).backup =
        lkfInit o.cur.x_ps o.cur.P_ps) ∧
    (∀ (n m p : ℕ) (s : NLState n m p),
      nonlinReset s = ⟨0, s.states, s.inputs, s.outputs, s.cov⟩) := by
  refine ⟨fun _ _ _ _ => rfl, ?_, fun _ _ _ _ => rfl, fun _ _ _ _ => rfl⟩
  intro n m p A B C Q R inv o u y
  rcases hs : lkfStep A B C Q R inv o.cur u y with e | c <;>
    simp [lkfObjStep, hs, Except.map]

/-- **C6.** One call of `LinearKalmanFilter.__call__` performs exactly the
closed-form recursion of the claim, in terms of the pre-call posterior
`s.x_ps`, `s.P_ps`: priori `x_pr = A·x_ps + B·u`, `P_pr = A·P_ps·Aᵀ + Q`;
gain `K = P_pr·Cᵀ·(C·P_pr·Cᵀ + R)⁻¹` (the inverse being whatever
`np.linalg.inv` returns on `C·P_pr·Cᵀ + R`); residual `res = y − C·x_pr`;
posterior `x_ps = x_pr + K·res`, `P_ps = (I − K·C)·P_pr`. -/
theorem c6_lkf_recursion (n m p : ℕ) (A : Mat n n) (B : Mat n m)
    (C : Mat p n) (Q : Mat n n) (R : Mat p p)
    (inv : Mat p p → Except NumErr (Mat p p)) (s : LKFState n m p)
    (u : Vec m) (y : Vec p) :
    lkfStep A B C Q R inv s u y =
      (inv (C * (A * s.P_ps * Aᵀ + Q) * Cᵀ + R)).map fun W =>
        { x_pr := A.mulVec s.x_ps + B.mulVec u
          x_ps := A.mulVec s.x_ps + B.mulVec u +
            ((A * s.P_ps * Aᵀ + Q) * Cᵀ * W).mulVec
              (y - C.mulVec (A.mulVec s.x_ps + B.mulVec u))
          res := y - C.mulVec (A.mulVec s.x_ps + B.mulVec u)
          K := (A * s.P_ps * Aᵀ + Q) * Cᵀ * W
          P_pr := A * s.P_ps * Aᵀ + Q
          P_ps := (1 - (A * s.P_ps * Aᵀ + Q) * Cᵀ * W * C) *
            (A * s.P_ps * Aᵀ + Q) } := by
  rcases hW : inv (C * (A * s.P_ps * Aᵀ + Q) * Cᵀ + R) with e | W
  · simp [lkfStep, hW, Except.map]
  · simp [lkfStep, hW, Except.map]
    exact ⟨rfl, rfl, rfl⟩

/-- **C8 (counterexample).** With `select = [1]`,
`scA.append(scB, [1]).select([1])` returns `scB`'s row 1 (value 40), not
`scA.signals[[1]]` (value 20): selecting *the same indices* from the result
does not round-trip unless `select` is an initial segment `[0, …]`. -/
theorem c8_scope_counterexample :
    (scopeAppendSel scA scB [1] >>= fun r => scopeSelect r [1]).map
        (fun r => r.sig 0 0) = .ok 40 ∧
    scA.sig 1 0 = 20 ∧ (40 : ℚ) ≠ 20 :=
  ⟨rfl, rfl, by decide⟩

/-- **C8 (amended).** For scopes over a shared time line (at least two
samples, signal matrices spanning the full time line) and a nonempty 1-D
index list `select` in range for both, `scope_1.append(scope_2, select)`
builds a scope whose first `len(select)` rows are `scope_1.signals[select]`
and whose remaining rows are `scope_2.signals[select]`; selecting positions
`0, …, len(select)−1` (the positions where `scope_1`'s rows landed) from
the result round-trips to the original sub-matrix
`scope_1.signals[select]`.  (Selecting the *original* indices round-trips
only when `select` is itself `[0, …, len−1]`.) -/
theorem c8_scope_append_select_amended (a b : ScopeE) (sel : List ℕ)
    (ha : ∀ i ∈ sel, i < a.rows) (hb : ∀ i ∈ sel, i < b.rows)
    (hc : b.cols = a.cols) (hct : a.cols = a.tlen) (hT : 2 ≤ a.tlen)
    (hL : 1 ≤ sel.length) :
    ∃ r, scopeAppendSel a b sel = .ok r ∧
      r.rows = 2 * sel.length ∧ r.cols = a.cols ∧
      (∀ i j, i < sel.length → r.sig i j = a.sig (sel.getD i 0) j) ∧
      (∀ i j, sel.length ≤ i →
        r.sig i j = b.sig (sel.getD (i - sel.length) 0) j) ∧
      ∃ r2, scopeSelect r (List.range sel.length) = .ok r2 ∧
        r2.rows = sel.length ∧
        (∀ i j, i < sel.length → r2.sig i j = a.sig (sel.getD i 0) j) := by
  have hcols : 2 ≤ a.cols := hct ▸ hT
  unfold scopeAppendSel
  rw [if_pos ⟨ha, hb, hc⟩]
  unfold scopeInitMatrix
  rw [if_neg (by omega : ¬(2 * sel.length + a.cols = 2 * sel.length ∨
    2 * sel.length + a.cols = 2 * sel.length + 1))]
  rw [if_neg (by omega : ¬(2 * sel.length + a.cols = 1 ∨
    2 * sel.length + a.cols = 2))]
  rw [if_pos (Or.inl ⟨rfl, hct⟩)]
  refine ⟨_, rfl, rfl, rfl, ?_, ?_, ?_⟩
  · intro i j hi
    simp [hi]
  · intro i j hi
    simp [Nat.not_lt.mpr hi]
  · unfold scopeSelect
    rw [if_pos (by
      intro i hi
      simp only [List.mem_range] at hi
      show i < 2 * sel.length
      omega)]
    unfold scopeInitMatrix
    rw [List.length_range]
    rw [if_neg (by omega : ¬(sel.length + a.cols = sel.length ∨
      sel.length + a.cols = sel.length + 1))]
    rw [if_neg (by omega : ¬(sel.length + a.cols = 1 ∨
      sel.length + a.cols = 2))]
    rw [if_pos (Or.inl ⟨rfl, hct⟩)]
    refine ⟨_, rfl, rfl, ?_⟩
    intro i j hi
    have hr : (List.range sel.length).getD i 0 = i := by
      rw [List.getD_eq_getElem?_getD, List.getElem?_range hi]
      rfl
    simp [hr, hi]

/-- Witness for C8 (amended) at the concrete scopes `scA`, `scB` with
`select = [0]`. -/
theorem c8_scope_append_select_amended_witness :
    ∃ r, scopeAppendSel scA scB [0] = .ok r ∧
      r.rows = 2 * [0].length ∧ r.cols = scA.cols ∧
      (∀ i j, i < [0].length → r.sig i j = scA.sig ([0].getD i 0) j) ∧
      (∀ i j, [0].length ≤ i →
        r.sig i j = scB.sig ([0].getD (i - [0].length) 0) j) ∧
      ∃ r2, scopeSelect r (List.range [0].length) = .ok r2 ∧
        r2.rows = [0].length ∧
        (∀ i j, i < [0].length → r2.sig i j = scA.sig ([0].getD i 0) j) :=
  c8_scope_append_select_amended scA scB [0] (by decide) (by decide) rfl rfl
    (by decide) (by decide)

theorem hasNaN_someV (v : Vec p) : hasNaN (someV v) = false := by
  simp [hasNaN, someV]

theorem nanVal_someV (v : Vec p) : nanVal (someV v) = v := rfl

theorem ekf_linear_predict (A : Mat n n) (B : Mat n m) (C : Mat p n)
    (Q : Mat n n) (R : Mat p p) (st : ℚ) (a : NLState n m p)
    (b : LKFState n m p) (u : Vec m) (hx : a.states a.step = b.x_ps)
    (hP : a.cov = b.P_ps) :
    ekfPredict (linearPlant A B C) ⟨Q, R, st⟩ a u =
      .ok ⟨Function.update a.inputs a.step u, a.states, A, C, 1, 1,
        fun i => A.mulVec b.x_ps i + B.mulVec u i,
        A * b.P_ps * Aᵀ + Q⟩ := by
  unfold ekfPredict linearPlant
  simp [bind, Except.bind, pure, Except.pure, limitHist, hx, hP,
    Function.update_same]

theorem ekf_lkf_step (A : Mat n n) (B : Mat n m) (C : Mat p n)
    (Q : Mat n n) (R : Mat p p) (inv : Mat p p → Except NumErr (Mat p p))
    (st : ℚ) (a : NLState n m p) (b : LKFState n m p) (u : Vec m) (y : Vec p)
    (hx : a.states a.step = b.x_ps) (hP : a.cov = b.P_ps) :
    (∃ a' b',
      ekfStep (linearPlant A B C) ⟨Q, R, st⟩ inv a u (someV y) = .ok a' ∧
      lkfStep A B C Q R inv b u y = .ok b' ∧
      a'.step = a.step + 1 ∧ a'.states (a.step + 1) = b'.x_ps ∧
      a'.cov = b'.P_ps) ∨
    (∃ e,
      ekfStep (linearPlant A B C) ⟨Q, R, st⟩ inv a u (someV y) = .error e ∧
      lkfStep A B C Q R inv b u y = .error e) := by
  have hpred := ekf_linear_predict A B C Q R st a b u hx hP
  rcases hW : inv (C * (A * b.P_ps * Aᵀ + Q) * Cᵀ + R) with e | W
  · right
    refine ⟨e, ?_, ?_⟩
    · simp only [ekfStep, hpred, exc_bind_ok]
      simp [hasNaN_someV, bind, Except.bind, hW]
    · simp [lkfStep, hW, Except.map]
  · left
    refine ⟨{ step := a.step + 1
              states := Function.update a.states (a.step + 1) fun i =>
                (fun i => A.mulVec b.x_ps i + B.mulVec u i) i +
                  ((A * b.P_ps * Aᵀ + Q) * Cᵀ * W).mulVec
                    (fun j => y j -
                      C.mulVec (fun i => A.mulVec b.x_ps i + B.mulVec u i) j) i
              inputs := Function.update a.inputs a.step u
              outputs := Function.update a.outputs a.step (someV y)
              cov := (1 - (A * b.P_ps * Aᵀ + Q) * Cᵀ * W * C) *
                (A * b.P_ps * Aᵀ + Q) },
            { x_pr := fun i => A.mulVec b.x_ps i + B.mulVec u i
              x_ps := fun i =>
                (fun i => A.mulVec b.x_ps i + B.mulVec u i) i +
                  ((A * b.P_ps * Aᵀ + Q) * Cᵀ * W).mulVec
                    (fun j => y j -
                      C.mulVec (fun i => A.mulVec b.x_ps i + B.mulVec u i) j) i
              res := fun j => y j -
                C.mulVec (fun i => A.mulVec b.x_ps i + B.mulVec u i) j
              K := (A * b.P_ps * Aᵀ + Q) * Cᵀ * W
              P_pr := A * b.P_ps * Aᵀ + Q
              P_ps := (1 - (A * b.P_ps * Aᵀ + Q) * Cᵀ * W * C) *
                (A * b.P_ps * Aᵀ + Q) }, ?_, ?_, rfl, ?_, rfl⟩
    · simp only [ekfStep, hpred, exc_bind_ok]
      simp [hasNaN_someV, bind, Except.bind, hW, pure, Except.pure, ekfStore,
        nanVal_someV]
    · simp [lkfStep, hW, Except.map]
    · simp [Function.update_same]

theorem ekf_lkf_run (A : Mat n n) (B : Mat n m) (C : Mat p n) (Q : Mat n n)
    (R : Mat p p) (inv : Mat p p → Except NumErr (Mat p p)) (st : ℚ)
    (x0 : Vec n) (P0 : Mat n n) (us : ℕ → Vec m) (ys : ℕ → Vec p) (t : ℕ) :
    (∃ a b,
      ekfRun (linearPlant A B C) ⟨Q, R, st⟩ inv x0 P0 us
        (fun j => someV (ys j)) t = .ok a ∧
      lkfRun A B C Q R inv x0 P0 us ys t = .ok b ∧
      a.step = t ∧ a.states t = b.x_ps ∧ a.cov = b.P_ps) ∨
    (∃ e,
      ekfRun (linearPlant A B C) ⟨Q, R, st⟩ inv x0 P0 us
        (fun j => someV (ys j)) t = .error e ∧
      lkfRun A B C Q R inv x0 P0 us ys t = .error e) := by
  induction t with
  | zero =>
    left
    exact ⟨_, _, rfl, rfl, rfl, by simp [nlInit, lkfInit], rfl⟩
  | succ t ih =>
    rcases ih with ⟨a, b, hae, hbe, hstep, hx, hP⟩ | ⟨e, hae, hbe⟩
    · have hx2 : a.states a.step = b.x_ps := by rw [hstep]; exact hx
      rcases ekf_lkf_step A B C Q R inv st a b (us t) (ys t) hx2 hP with
        ⟨a', b', ha', hb', hs', hx', hP'⟩ | ⟨e, ha', hb'⟩
      · left
        refine ⟨a', b', ?_, ?_, ?_, ?_, hP'⟩
        · simp [ekfRun, hae, exc_bind_ok, ha']
        · simp [lkfRun, hbe, exc_bind_ok, hb']
        · rw [hs', hstep]
        · rw [hstep] at hx'
          exact hx'
      · right
        refine ⟨e, ?_, ?_⟩
        · simp [ekfRun, hae, exc_bind_ok, ha']
        · simp [lkfRun, hbe, exc_bind_ok, hb']
    · right
      refine ⟨e, ?_, ?_⟩
      · simp [ekfRun, hae, bind, Except.bind]
      · simp [lkfRun, hbe, bind, Except.bind]

/-- **C2.** On a purely linear discrete-time plant (dynamics
`A·x + B·u`, measurement `C·x`, identity limitation, constant Jacobians
with `H = C` and `L = M = I`) with matching `Q`, `R`, initial state and
initial covariance, the EKF `estimate` recursion produces at every step
exactly the same posterior state (stored at history column `t`) and
covariance as the `LinearKalmanFilter` recursion driven by the same input
and output sequences — including identical failure behaviour of the shared
`np.linalg.inv` oracle. -/
theorem c2_ekf_matches_lkf_on_linear_plant (n m p : ℕ) (A : Mat n n)
    (B : Mat n m) (C : Mat p n) (Q : Mat n n) (R : Mat p p)
    (inv : Mat p p → Except NumErr (Mat p p)) (st : ℚ) (x0 : Vec n)
    (P0 : Mat n n) (us : ℕ → Vec m) (ys : ℕ → Vec p) (t : ℕ) :
    (ekfRun (linearPlant A B C) ⟨Q, R, st⟩ inv x0 P0 us
        (fun j => someV (ys j)) t).map (fun s => (s.states t, s.cov)) =
      (lkfRun A B C Q R inv x0 P0 us ys t).map fun s => (s.x_ps, s.P_ps) := by
  rcases ekf_lkf_run A B C Q R inv st x0 P0 us ys t with
    ⟨a, b, hae, hbe, _, hx, hP⟩ | ⟨e, hae, hbe⟩
  · simp [hae, hbe, Except.map, hx, hP]
  · simp [hae, hbe, Except.map]
